import Mathlib

/-!
Verification of the ccls indexing core (`src/indexer.h`,
`src/src/messages/ccls_vars.cc`) against its specification.

The C++ data model is embedded shallowly: the packed 64-bit `Location`
bitfield becomes a wrapped `Nat` with explicit division/modulus field
accessors, `std::unordered_map` becomes an association list, `std::string`
becomes `String` (or `List Char` where character-level structure matters),
mutation becomes explicit state passing, and a failed `assert` becomes an
`Except` error.  Code that the repository declares but whose definition is
not part of the sources here (`indexer.cc`, `bitfield.h`) is modelled from
the specification text; such definitions carry a doc comment beginning
with "Modelled from the spec".
-/

namespace CclsIndexer

/-- Error kinds of the spec's error model (§7): a packed Location field
would overflow, or an asserted invariant (non-empty USR) failed. -/
inductive IndexError where
  | capacityExceeded
  | invariantViolated
deriving DecidableEq

/-! ## Location codec

`BEGIN_BITFIELD_TYPE(Location, uint64_t)` with members, from the LSB:
`interesting`:1 at bit 0, `file_id`:29 at bit 1, `line`:20 at bit 30,
`column`:14 at bit 50 (src/indexer.h:31-36). -/

/-- The Location bitfield wrapper: a packed 64-bit value. -/
structure Location where
  value : Nat
deriving DecidableEq

/-- The packed value fits the `uint64_t` storage. -/
def Location.Wf (l : Location) : Prop := l.value < 2 ^ 64

instance (l : Location) : Decidable l.Wf := by
  unfold Location.Wf
  infer_instance

/-- Bitfield read of `interesting` (bit 0). -/
def Location.interesting (l : Location) : Bool := l.value % 2 == 1

/-- Bitfield read of `file_id` (bits 1..29). -/
def Location.file_id (l : Location) : Nat := l.value / 2 ^ 1 % 2 ^ 29

/-- Bitfield read of `line` (bits 30..49). -/
def Location.line (l : Location) : Nat := l.value / 2 ^ 30 % 2 ^ 20

/-- Bitfield read of `column` (bits 50..63). -/
def Location.column (l : Location) : Nat := l.value / 2 ^ 50 % 2 ^ 14

/-- The packed value produced by the four bitfield member writes of the
`Location(interesting, file_id, line, column)` constructor body
(src/indexer.h:38-43), each field already in range. -/
def Location.pack (interesting : Bool) (file_id line column : Nat) : Location :=
  ⟨(if interesting then 1 else 0) + 2 ^ 1 * file_id + 2 ^ 30 * line + 2 ^ 50 * column⟩

/-- Modelled from the spec: the checked construction
`Location(bool, FileId, uint32_t, uint32_t)` (src/indexer.h:38-43).  The
width checks come from the bitfield member assignment of `bitfield.h`
(`ADD_BITFIELD_MEMBER`), which is not among the sources: per the spec the
constructor "asserts each field fits its bit width" and an overflowing
field is a fatal `CapacityExceeded`.  The `interesting` argument is a
`bool` and always fits its single bit. -/
def Location.make (interesting : Bool) (file_id line column : Nat) :
    Except IndexError Location :=
  if file_id < 2 ^ 29 then
    if line < 2 ^ 20 then
      if column < 2 ^ 14 then
        .ok (Location.pack interesting file_id line column)
      else .error .capacityExceeded
    else .error .capacityExceeded
  else .error .capacityExceeded

/-- The comparison `bool IsEqualTo(const Location& o)`
(src/indexer.h:69-72): both packed values are shifted right by one,
dropping only the `interesting` bit. -/
def Location.IsEqualTo (l o : Location) : Bool :=
  l.value / 2 == o.value / 2

/-- The copy-and-set `Location WithInteresting(bool)` (src/indexer.h:74-78):
the result is the same packed value with bit 0 rewritten. -/
def Location.WithInteresting (l : Location) (interesting : Bool) : Location :=
  ⟨l.value / 2 * 2 + (if interesting then 1 else 0)⟩

/-! ### Arithmetic facts about the packed representation -/

theorem Location.pack_interesting (i : Bool) (f l c : Nat) :
    (Location.pack i f l c).interesting = i := by
  cases i <;> simp [Location.pack, Location.interesting] <;> omega

theorem Location.pack_file_id (i : Bool) (f l c : Nat) (hf : f < 2 ^ 29) :
    (Location.pack i f l c).file_id = f := by
  cases i <;> simp [Location.pack, Location.file_id] <;> omega

theorem Location.pack_line (i : Bool) (f l c : Nat) (hf : f < 2 ^ 29)
    (hl : l < 2 ^ 20) : (Location.pack i f l c).line = l := by
  cases i <;> simp [Location.pack, Location.line] <;> omega

theorem Location.pack_column (i : Bool) (f l c : Nat) (hf : f < 2 ^ 29)
    (hl : l < 2 ^ 20) (hc : c < 2 ^ 14) : (Location.pack i f l c).column = c := by
  cases i <;> simp [Location.pack, Location.column] <;> omega

theorem Location.pack_wf (i : Bool) (f l c : Nat) (hf : f < 2 ^ 29)
    (hl : l < 2 ^ 20) (hc : c < 2 ^ 14) : (Location.pack i f l c).Wf := by
  cases i <;> simp [Location.pack, Location.Wf] <;> omega

/-- A well-formed packed value is recovered from its four fields. -/
theorem Location.pack_eta (l : Location) (h : l.Wf) :
    Location.pack l.interesting l.file_id l.line l.column = l := by
  obtain ⟨v⟩ := l
  simp only [Location.pack, Location.interesting, Location.file_id, Location.line,
    Location.column, Location.mk.injEq]
  simp only [Location.Wf] at h
  rcases Nat.even_or_odd v with he | ho
  · have hv : v % 2 = 0 := Nat.even_iff.mp he
    simp only [hv]
    norm_num
    omega
  · have hv : v % 2 = 1 := Nat.odd_iff.mp ho
    simp only [hv]
    norm_num
    omega

/-! ## Decimal rendering (`std::to_string`) and `Location::ToString` -/

/-- The character of a single decimal digit. -/
def digitChar (d : Nat) : Char := Char.ofNat (48 + d)

/-- Decimal digits of `n` prepended to `acc`, most significant first;
this is the digit emission of `std::to_string` on an unsigned value. -/
def digitCharsTo (n : Nat) (acc : List Char) : List Char :=
  if h : n < 10 then digitChar n :: acc
  else digitCharsTo (n / 10) (digitChar (n % 10) :: acc)
termination_by n
decreasing_by omega

/-- The decimal rendering of `n` (`std::to_string`). -/
def natChars (n : Nat) : List Char := digitCharsTo n []

/-- The body of `std::string ToString()` (src/indexer.h:45-64): a `*` is
appended when `interesting` is set, then the decimal `file_id`, `:`, the
decimal `line`, `:`, the decimal `column`, each appended in turn to the
growing `result` string. -/
def Location.ToString (l : Location) : List Char :=
  let result : List Char := []
  let result := if l.interesting then result ++ ['*'] else result
  let result := result ++ natChars l.file_id
  let result := result ++ [':']
  let result := result ++ natChars l.line
  let result := result ++ [':']
  let result := result ++ natChars l.column
  result

/-! ### Facts about the decimal rendering -/

theorem digitCharsTo_append (n : Nat) :
    ∀ a b, digitCharsTo n (a ++ b) = digitCharsTo n a ++ b := by
  induction n using Nat.strong_induction_on with
  | _ n ih =>
    intro a b
    by_cases h : n < 10
    · nth_rewrite 2 [digitCharsTo]
      rw [dif_pos h, digitCharsTo, dif_pos h, List.cons_append]
    · nth_rewrite 2 [digitCharsTo]
      rw [dif_neg h, digitCharsTo, dif_neg h, ← List.cons_append, ih (n / 10) (by omega)]

theorem digitCharsTo_eq (n : Nat) : ∀ acc, digitCharsTo n acc = natChars n ++ acc := by
  intro acc
  rw [natChars, ← digitCharsTo_append n [] acc, List.nil_append]

theorem natChars_lt (n : Nat) (h : n < 10) : natChars n = [digitChar n] := by
  rw [natChars, digitCharsTo, dif_pos h]

theorem natChars_ge (n : Nat) (h : 10 ≤ n) :
    natChars n = natChars (n / 10) ++ [digitChar (n % 10)] := by
  rw [natChars, digitCharsTo, dif_neg (by omega), digitCharsTo_eq]

theorem natChars_ne_nil (n : Nat) : natChars n ≠ [] := by
  by_cases h : n < 10
  · simp [natChars_lt n h]
  · simp [natChars_ge n (by omega)]

/-- Recognizer of decimal digit characters. -/
def isDigitChar (c : Char) : Bool := decide (48 ≤ c.toNat) && decide (c.toNat ≤ 57)

theorem isDigitChar_digitChar : ∀ d < 10, isDigitChar (digitChar d) = true := by decide

theorem mem_natChars_isDigit (n : Nat) : ∀ c ∈ natChars n, isDigitChar c = true := by
  induction n using Nat.strong_induction_on with
  | _ n ih =>
    intro c hc
    by_cases h : n < 10
    · rw [natChars_lt n h, List.mem_singleton] at hc
      exact hc ▸ isDigitChar_digitChar n h
    · rw [natChars_ge n (by omega), List.mem_append] at hc
      cases hc with
      | inl hmem => exact ih (n / 10) (by omega) c hmem
      | inr hmem =>
        rw [List.mem_singleton] at hmem
        exact hmem ▸ isDigitChar_digitChar (n % 10) (by omega)

theorem isDigitChar_ne_star {c : Char} (h : isDigitChar c = true) : c ≠ '*' := by
  intro he
  subst he
  simp [isDigitChar] at h

/-- The string the code builds, written as one concatenation. -/
theorem Location.toString_eq (l : Location) :
    Location.ToString l =
      (if l.interesting then ['*'] else []) ++ natChars l.file_id ++
        [':'] ++ natChars l.line ++ [':'] ++ natChars l.column := by
  cases h : l.interesting <;> simp [Location.ToString, h]

/-- C2: the Location constructor checks every field against its bit width
(1, 29, 20 and 14 bits); an in-range construction packs exactly the given
fields (no silent wrap), and any out-of-range field is a fatal
`CapacityExceeded` error. -/
theorem location_make_checks (i : Bool) (f l c : Nat) :
    (Location.make i f l c = .error .capacityExceeded ↔
      ¬(f < 2 ^ 29 ∧ l < 2 ^ 20 ∧ c < 2 ^ 14)) ∧
    (∀ loc, Location.make i f l c = .ok loc →
      loc.interesting = i ∧ loc.file_id = f ∧ loc.line = l ∧ loc.column = c ∧ loc.Wf) := by
  constructor
  · unfold Location.make
    split
    · split
      · split
        · simp
          omega
        · simp
          omega
      · simp
        omega
    · simp
      omega
  · intro loc hok
    unfold Location.make at hok
    by_cases hf : f < 2 ^ 29
    · by_cases hl : l < 2 ^ 20
      · by_cases hc : c < 2 ^ 14
        · rw [if_pos hf, if_pos hl, if_pos hc] at hok
          cases hok
          exact ⟨Location.pack_interesting i f l c, Location.pack_file_id i f l c hf,
            Location.pack_line i f l c hf hl, Location.pack_column i f l c hf hl hc,
            Location.pack_wf i f l c hf hl hc⟩
        · rw [if_pos hf, if_pos hl, if_neg hc] at hok
          cases hok
      · rw [if_pos hf, if_neg hl] at hok
        cases hok
    · rw [if_neg hf] at hok
      cases hok

/-- Witness for C2 at concrete inputs: an in-range construction succeeds
with the exact fields, and an overflowing line is rejected. -/
theorem location_make_checks_witness :
    (Location.pack true 3 4 5).file_id = 3 ∧
    (Location.make false 0 (2 ^ 20) 0 = .error .capacityExceeded) := by
  constructor
  · exact ((location_make_checks true 3 4 5).2 (Location.pack true 3 4 5) rfl).2.1
  · exact (location_make_checks false 0 (2 ^ 20) 0).1.mpr (by omega)

/-- C6: `IsEqualTo` holds exactly when the two packed values agree on
`file_id`, `line` and `column`; only the low `interesting` bit is masked
out of the comparison. -/
theorem location_isEqualTo_iff (a b : Location) (ha : a.Wf) (hb : b.Wf) :
    a.IsEqualTo b = true ↔
      a.file_id = b.file_id ∧ a.line = b.line ∧ a.column = b.column := by
  obtain ⟨x⟩ := a
  obtain ⟨y⟩ := b
  simp only [Location.IsEqualTo, Location.file_id, Location.line, Location.column,
    Location.Wf, beq_iff_eq] at *
  constructor
  · intro h
    omega
  · intro ⟨h1, h2, h3⟩
    omega

/-- Witness for C6: two concrete packed values differing only in the
interesting bit compare equal. -/
theorem location_isEqualTo_iff_witness :
    Location.Wf ⟨2 ^ 1 * 7 + 2 ^ 30 * 8 + 2 ^ 50 * 9⟩ ∧
    Location.Wf ⟨1 + 2 ^ 1 * 7 + 2 ^ 30 * 8 + 2 ^ 50 * 9⟩ ∧
    Location.IsEqualTo ⟨2 ^ 1 * 7 + 2 ^ 30 * 8 + 2 ^ 50 * 9⟩
      ⟨1 + 2 ^ 1 * 7 + 2 ^ 30 * 8 + 2 ^ 50 * 9⟩ = true := by
  refine ⟨by decide, by decide, ?_⟩
  exact (location_isEqualTo_iff ⟨2 ^ 1 * 7 + 2 ^ 30 * 8 + 2 ^ 50 * 9⟩
    ⟨1 + 2 ^ 1 * 7 + 2 ^ 30 * 8 + 2 ^ 50 * 9⟩ (by decide) (by decide)).mpr (by decide)

/-- C8: `ToString` writes an optional `*` exactly when the interesting bit
is set, then the decimal `file_id`, `line` and `column` separated by
colons; in particular the output starts with `*` precisely on interesting
locations. -/
theorem location_toString_format (l : Location) :
    Location.ToString l =
      (if l.interesting then ['*'] else []) ++ natChars l.file_id ++
        [':'] ++ natChars l.line ++ [':'] ++ natChars l.column ∧
    ((Location.ToString l).head? = some '*' ↔ l.interesting = true) := by
  refine ⟨Location.toString_eq l, ?_⟩
  rw [Location.toString_eq l]
  cases h : l.interesting
  · obtain ⟨c, cs, hc⟩ := List.exists_cons_of_ne_nil (natChars_ne_nil l.file_id)
    have hd : isDigitChar c = true := by
      apply mem_natChars_isDigit l.file_id
      rw [hc]
      exact List.mem_cons_self c cs
    simp [h, hc, isDigitChar_ne_star hd]
  · simp [h]

/-! ## Parsing the textual form

No parser of the textual Location form exists among the sources; the spec
nonetheless requires `from_string(x.to_string()) == x`.  The parser below
is modelled from the spec's grammar: an optional `*` prefix setting
`interesting`, then decimal `<file_id>:<line>:<column>`. -/

/-- The numeric value of a digit character. -/
def charVal (c : Char) : Nat := c.toNat - 48

/-- The value of a big-endian list of digit characters. -/
def digitsValue (ds : List Char) : Nat :=
  ds.foldl (fun a c => a * 10 + charVal c) 0

/-- The longest digit-character prefix together with the remainder. -/
def takeDigits : List Char → List Char × List Char
  | [] => ([], [])
  | c :: cs =>
    if isDigitChar c then
      let (ds, rest) := takeDigits cs
      (c :: ds, rest)
    else ([], c :: cs)

/-- Modelled from the spec: parse a nonempty run of decimal digits,
returning its value and the remaining characters. -/
def parseNat (cs : List Char) : Option (Nat × List Char) :=
  let (ds, rest) := takeDigits cs
  if ds = [] then none else some (digitsValue ds, rest)

/-- Modelled from the spec: consume the optional `*` prefix, yielding the
`interesting` flag. -/
def stripStar : List Char → Bool × List Char
  | [] => (false, [])
  | c :: cs => if c = '*' then (true, cs) else (false, c :: cs)

/-- Modelled from the spec: require a `:` separator. -/
def expectColon : List Char → Option (List Char)
  | [] => none
  | c :: cs => if c = ':' then some cs else none

/-- Modelled from the spec: `from_string`, the inverse of
`Location::ToString` — optional `*`, then `<file_id>:<line>:<column>` in
decimal, and nothing after. -/
def Location.FromString (cs : List Char) : Option Location :=
  let (interesting, cs1) := stripStar cs
  match parseNat cs1 with
  | none => none
  | some (f, cs2) =>
    match expectColon cs2 with
    | none => none
    | some cs3 =>
      match parseNat cs3 with
      | none => none
      | some (ln, cs4) =>
        match expectColon cs4 with
        | none => none
        | some cs5 =>
          match parseNat cs5 with
          | none => none
          | some (col, rest) =>
            if rest = [] then some (Location.pack interesting f ln col) else none

/-! ### Round-trip lemmas -/

theorem takeDigits_append (a b : List Char) (ha : ∀ c ∈ a, isDigitChar c = true)
    (hb : ∀ c, b.head? = some c → isDigitChar c = false) :
    takeDigits (a ++ b) = (a, b) := by
  induction a with
  | nil =>
    cases b with
    | nil => rfl
    | cons c cs =>
      simp only [List.nil_append, takeDigits]
      rw [if_neg]
      simp [hb c rfl]
  | cons c cs ih =>
    have hih := ih fun x hx => ha x (List.mem_cons_of_mem c hx)
    simp only [List.cons_append, takeDigits, List.append_eq,
      if_pos (ha c (List.mem_cons_self c cs)), hih]

theorem digitsValue_append_digit (ds : List Char) (c : Char) :
    digitsValue (ds ++ [c]) = digitsValue ds * 10 + charVal c := by
  simp [digitsValue, List.foldl_append]

theorem charVal_digitChar : ∀ d < 10, charVal (digitChar d) = d := by decide

theorem digitsValue_natChars (n : Nat) : digitsValue (natChars n) = n := by
  induction n using Nat.strong_induction_on with
  | _ n ih =>
    by_cases h : n < 10
    · simp [natChars_lt n h, digitsValue, charVal_digitChar n h]
    · rw [natChars_ge n (by omega), digitsValue_append_digit, ih (n / 10) (by omega),
        charVal_digitChar (n % 10) (by omega)]
      omega

theorem parseNat_append (n : Nat) (b : List Char)
    (hb : ∀ c, b.head? = some c → isDigitChar c = false) :
    parseNat (natChars n ++ b) = some (n, b) := by
  unfold parseNat
  rw [takeDigits_append (natChars n) b (mem_natChars_isDigit n) hb]
  simp only [if_neg (natChars_ne_nil n), digitsValue_natChars n]

theorem isDigitChar_colon : isDigitChar ':' = false := by decide

theorem parseNat_natChars (n : Nat) : parseNat (natChars n) = some (n, []) := by
  have h := parseNat_append n [] (fun c hc => by cases hc)
  simpa using h

theorem expectColon_colon (t : List Char) : expectColon (':' :: t) = some t := by
  simp [expectColon]

theorem stripStar_star (t : List Char) : stripStar ('*' :: t) = (true, t) := by
  simp [stripStar]

theorem stripStar_cons {c : Char} (t : List Char) (h : c ≠ '*') :
    stripStar (c :: t) = (false, c :: t) := by
  simp [stripStar, h]

/-- C7: Location round-trip — parsing the textual form of any well-formed
packed Location yields the Location back. -/
theorem location_fromString_toString (l : Location) (h : l.Wf) :
    Location.FromString (Location.ToString l) = some l := by
  rw [Location.toString_eq l]
  have hcol : ∀ (t : List Char), ∀ c, (':' :: t).head? = some c → isDigitChar c = false := by
    intro t c hc
    cases hc
    exact isDigitChar_colon
  have hmain : ∀ i : Bool, i = l.interesting →
      (match parseNat (natChars l.file_id ++ [':'] ++ natChars l.line ++ [':'] ++
          natChars l.column) with
      | none => none
      | some (f, cs2) =>
        match expectColon cs2 with
        | none => none
        | some cs3 =>
          match parseNat cs3 with
          | none => none
          | some (ln, cs4) =>
            match expectColon cs4 with
            | none => none
            | some cs5 =>
              match parseNat cs5 with
              | none => none
              | some (col, rest) =>
                if rest = [] then some (Location.pack i f ln col)
                else none) = some l := by
    intro i hil
    rw [show natChars l.file_id ++ [':'] ++ natChars l.line ++ [':'] ++ natChars l.column =
        natChars l.file_id ++ (':' :: (natChars l.line ++ (':' :: natChars l.column))) by simp]
    rw [parseNat_append l.file_id _ (hcol _)]
    simp only [expectColon_colon, parseNat_append l.line _ (hcol _), parseNat_natChars]
    rw [hil, Location.pack_eta l h]
    simp
  obtain ⟨c, cs, hc⟩ := List.exists_cons_of_ne_nil (natChars_ne_nil l.file_id)
  have hd : isDigitChar c = true := by
    apply mem_natChars_isDigit l.file_id
    rw [hc]
    exact List.mem_cons_self c cs
  unfold Location.FromString
  cases hi : l.interesting
  · have hpre : (if (false : Bool) = true then ['*'] else ([] : List Char)) ++
        natChars l.file_id ++ [':'] ++ natChars l.line ++ [':'] ++ natChars l.column =
        c :: (cs ++ [':'] ++ natChars l.line ++ [':'] ++ natChars l.column) := by
      simp [hc]
    rw [hpre, stripStar_cons _ (isDigitChar_ne_star hd)]
    have hback : c :: (cs ++ [':'] ++ natChars l.line ++ [':'] ++ natChars l.column) =
        natChars l.file_id ++ [':'] ++ natChars l.line ++ [':'] ++ natChars l.column := by
      simp [hc]
    rw [hback]
    exact hmain false hi.symm
  · have hpre : (if (true : Bool) = true then ['*'] else ([] : List Char)) ++
        natChars l.file_id ++ [':'] ++ natChars l.line ++ [':'] ++ natChars l.column =
        '*' :: (natChars l.file_id ++ [':'] ++ natChars l.line ++ [':'] ++
          natChars l.column) := by
      simp
    rw [hpre, stripStar_star]
    exact hmain true hi.symm

/-- Witness for C7 at a concrete packed value. -/
theorem location_fromString_toString_witness :
    Location.Wf ⟨1 + 2 ^ 1 * 12 + 2 ^ 30 * 34 + 2 ^ 50 * 5⟩ ∧
    Location.FromString
        (Location.ToString ⟨1 + 2 ^ 1 * 12 + 2 ^ 30 * 34 + 2 ^ 50 * 5⟩) =
      some ⟨1 + 2 ^ 1 * 12 + 2 ^ 30 * 34 + 2 ^ 50 * 5⟩ :=
  ⟨by decide, location_fromString_toString ⟨1 + 2 ^ 1 * 12 + 2 ^ 30 * 34 + 2 ^ 50 * 5⟩ (by decide)⟩

/-! ## IndexedFileDb (src/indexer.h:82-127)

An `std::unordered_map` is modelled as an association list: `find` is the
first entry with the key (keys are inserted at most once), `size` is the
length. -/

/-- Lookup of a key in an association list (`unordered_map::find`). -/
def assocFind {α β : Type} [DecidableEq α] : List (α × β) → α → Option β
  | [], _ => none
  | (k, v) :: rest, key => if k = key then some v else assocFind rest key

theorem assocFind_append_left {α β : Type} [DecidableEq α]
    (m m2 : List (α × β)) (k : α) (v : β) (h : assocFind m k = some v) :
    assocFind (m ++ m2) k = some v := by
  induction m with
  | nil => cases h
  | cons e rest ih =>
    obtain ⟨ek, ev⟩ := e
    simp only [assocFind, List.cons_append] at *
    by_cases he : ek = k
    · rwa [if_pos he] at *
    · rw [if_neg he] at *
      exact ih h

theorem assocFind_append_right {α β : Type} [DecidableEq α]
    (m m2 : List (α × β)) (k : α) (h : assocFind m k = none) :
    assocFind (m ++ m2) k = assocFind m2 k := by
  induction m with
  | nil => rfl
  | cons e rest ih =>
    obtain ⟨ek, ev⟩ := e
    simp only [assocFind, List.cons_append] at *
    by_cases he : ek = k
    · rw [if_pos he] at h
      cases h
    · rw [if_neg he] at *
      exact ih h

/-- The two interning maps of `IndexedFileDb` (src/indexer.h:83-84). -/
structure IndexedFileDb where
  file_path_to_file_id : List (String × Nat)
  file_id_to_file_path : List (Nat × String)
deriving DecidableEq

/-- The `IndexedFileDb()` constructor (src/indexer.h:86-90): id 0 is
reserved for "unfound" by binding the empty path in both directions. -/
def IndexedFileDb.init : IndexedFileDb :=
  { file_path_to_file_id := [("", 0)], file_id_to_file_path := [(0, "")] }

/-- The file-id computation inside
`Location Resolve(const CXSourceLocation&, bool)` (src/indexer.h:92-113).
`file` is the frontend's `CXFile` (`none` models a null file).  The local
`FileId file_id;` of the source is declared without an initializer and is
only assigned in the `file != nullptr` branch; `junk` stands for the
indeterminate value it holds on the other path, where the source reads it
uninitialized. -/
def IndexedFileDb.ResolveFileId (db : IndexedFileDb) (file : Option String)
    (junk : Nat) : IndexedFileDb × Nat :=
  match file with
  | none => (db, junk)
  | some path =>
    match assocFind db.file_path_to_file_id path with
    | some id => (db, id)
    | none =>
      let file_id := db.file_path_to_file_id.length
      ({ file_path_to_file_id := db.file_path_to_file_id ++ [(path, file_id)],
         file_id_to_file_path := db.file_id_to_file_path ++ [(file_id, path)] },
       file_id)

/-- The full `Resolve`: compute the file id, then construct the checked
`Location(interesting, file_id, line, column)` (src/indexer.h:112). -/
def IndexedFileDb.Resolve (db : IndexedFileDb) (file : Option String)
    (line column : Nat) (interesting : Bool) (junk : Nat) :
    Except IndexError (IndexedFileDb × Location) :=
  let r := db.ResolveFileId file junk
  (Location.make interesting r.2 line column).map fun loc => (r.1, loc)

/-- C1 is refuted by the code: when the frontend reports a null file, the
local `file_id` is never assigned, so `Resolve` packs the indeterminate
value it happens to hold — here 7 — and not the sentinel 0.  The claim
holds only on executions whose junk value happens to be 0. -/
theorem resolve_null_file_not_sentinel :
    ∃ loc, IndexedFileDb.Resolve IndexedFileDb.init none 1 1 false 7 =
        .ok (IndexedFileDb.init, loc) ∧ loc.file_id = 7 ∧ loc.file_id ≠ 0 := by
  refine ⟨Location.pack false 7 1 1, rfl, ?_, ?_⟩ <;> decide

/-- C5: resolving a path that is already interned returns its existing id
and leaves the maps untouched; resolving a fresh path assigns the id equal
to the current size of the path-to-id map and appends the binding to both
maps, and — because the empty path occupies id 0 from construction — every
freshly assigned id is at least 1, each insertion growing the map by one. -/
theorem fileDb_resolve_interning (db : IndexedFileDb) (path : String) (junk : Nat)
    (hroot : assocFind db.file_path_to_file_id "" = some 0) :
    (∀ id, assocFind db.file_path_to_file_id path = some id →
      db.ResolveFileId (some path) junk = (db, id)) ∧
    (assocFind db.file_path_to_file_id path = none →
      db.ResolveFileId (some path) junk =
        ({ file_path_to_file_id :=
             db.file_path_to_file_id ++ [(path, db.file_path_to_file_id.length)],
           file_id_to_file_path :=
             db.file_id_to_file_path ++ [(db.file_path_to_file_id.length, path)] },
         db.file_path_to_file_id.length) ∧
      assocFind (db.ResolveFileId (some path) junk).1.file_path_to_file_id path =
        some db.file_path_to_file_id.length ∧
      1 ≤ db.file_path_to_file_id.length ∧
      (db.ResolveFileId (some path) junk).1.file_path_to_file_id.length =
        db.file_path_to_file_id.length + 1) := by
  constructor
  · intro id hid
    simp [IndexedFileDb.ResolveFileId, hid]
  · intro habs
    have hres : db.ResolveFileId (some path) junk =
        ({ file_path_to_file_id :=
             db.file_path_to_file_id ++ [(path, db.file_path_to_file_id.length)],
           file_id_to_file_path :=
             db.file_id_to_file_path ++ [(db.file_path_to_file_id.length, path)] },
         db.file_path_to_file_id.length) := by
      simp [IndexedFileDb.ResolveFileId, habs]
    refine ⟨hres, ?_, ?_, ?_⟩
    · rw [hres]
      rw [assocFind_append_right _ _ _ habs]
      simp [assocFind]
    · cases hm : db.file_path_to_file_id with
      | nil => rw [hm] at hroot; cases hroot
      | cons e rest => simp [hm]
    · rw [hres]
      simp

/-- Witness for C5: interning a fresh path in the freshly constructed db
assigns it id 1 and stores it in both maps. -/
theorem fileDb_resolve_interning_witness :
    assocFind IndexedFileDb.init.file_path_to_file_id "" = some 0 ∧
    IndexedFileDb.init.ResolveFileId (some "a.cc") 0 =
      ({ file_path_to_file_id := [("", 0), ("a.cc", 1)],
         file_id_to_file_path := [(0, ""), (1, "a.cc")] }, 1) := by
  refine ⟨rfl, ?_⟩
  have h := (fileDb_resolve_interning IndexedFileDb.init "a.cc" 0 rfl).2 rfl
  exact h.1

/-! ## Local ids, refs and entity records (src/indexer.h:130-301)

The phantom type parameter of `LocalId<T>` is erased in this embedding;
`TypeId`, `FuncId` and `VarId` are the three aliases of it. -/

/-- A per-file typed handle, `LocalId<T>` (src/indexer.h:130-140). -/
structure LocalId where
  local_id : Nat
deriving DecidableEq

abbrev TypeId := LocalId
abbrev FuncId := LocalId
abbrev VarId := LocalId

/-- A (handle, location) reference, `Ref<T>` (src/indexer.h:152-158). -/
structure Ref where
  id : LocalId
  loc : Location
deriving DecidableEq

/-- The `def` payload of a type record, `TypeDefDefinitionData`
(src/indexer.h:169-200). -/
structure TypeDefDefinitionData where
  id : TypeId
  usr : String
  short_name : String
  qualified_name : String
  definition : Option Location
  alias_of : Option TypeId
  parents : List TypeId
  types : List TypeId
  funcs : List FuncId
  vars : List VarId
deriving DecidableEq

/-- The ctor `TypeDefDefinitionData(TypeId id, const std::string& usr)`
(src/indexer.h:199): sets `id` and `usr`, no assert, everything else
default-constructed. -/
def TypeDefDefinitionData.make (id : TypeId) (usr : String) : TypeDefDefinitionData :=
  ⟨id, usr, "", "", none, none, [], [], [], []⟩

/-- The type record `IndexedTypeDef` (src/indexer.h:202-216); the C++
field `def` is spelled `ddef` because `def` is a Lean keyword. -/
structure IndexedTypeDef where
  ddef : TypeDefDefinitionData
  derived : List TypeId
  uses : List Location
  is_system_def : Bool
deriving DecidableEq

/-- Modelled from the spec: the ctor `IndexedTypeDef(TypeId, const
std::string&)` is declared at src/indexer.h:214 but defined in the absent
`indexer.cc`; per the spec a fresh record is "constructed with (fresh_id =
vector.len, usr)", so it builds the `def` payload from (id, usr) with the
remaining members empty. -/
def IndexedTypeDef.make (id : TypeId) (usr : String) : IndexedTypeDef :=
  ⟨TypeDefDefinitionData.make id usr, [], [], false⟩

/-- The `def` payload of a function record, `FuncDefDefinitionData`
(src/indexer.h:218-241). -/
structure FuncDefDefinitionData where
  id : FuncId
  usr : String
  short_name : String
  qualified_name : String
  definition : Option Location
  declaring_type : Option TypeId
  base : Option FuncId
  locals : List VarId
  callees : List Ref
deriving DecidableEq

/-- The ctor `FuncDefDefinitionData(FuncId id, const std::string& usr)`
(src/indexer.h:238-240): `assert(usr.size() > 0)`; the failed assert is
the spec's fatal `InvariantViolated`. -/
def FuncDefDefinitionData.make (id : FuncId) (usr : String) :
    Except IndexError FuncDefDefinitionData :=
  if usr.length > 0 then .ok ⟨id, usr, "", "", none, none, none, [], []⟩
  else .error .invariantViolated

/-- The function record `IndexedFuncDef` (src/indexer.h:243-268). -/
structure IndexedFuncDef where
  ddef : FuncDefDefinitionData
  declarations : List Location
  derived : List FuncId
  callers : List Ref
  uses : List Location
  is_system_def : Bool
deriving DecidableEq

/-- The ctor `IndexedFuncDef(FuncId id, const std::string& usr) : def(id,
usr) { assert(usr.size() > 0); }` (src/indexer.h:265-267): the payload
ctor runs (and asserts) first, then the record ctor asserts again. -/
def IndexedFuncDef.make (id : FuncId) (usr : String) :
    Except IndexError IndexedFuncDef :=
  match FuncDefDefinitionData.make id usr with
  | .error e => .error e
  | .ok d =>
    if usr.length > 0 then .ok ⟨d, [], [], [], [], false⟩
    else .error .invariantViolated

/-- The `def` payload of a variable record, `VarDefDefinitionData`
(src/indexer.h:270-288). -/
structure VarDefDefinitionData where
  id : VarId
  usr : String
  short_name : String
  qualified_name : String
  declaration : Option Location
  definition : Option Location
  variable_type : Option TypeId
  declaring_type : Option TypeId
deriving DecidableEq

/-- The ctor `VarDefDefinitionData(VarId id, const std::string& usr)`
(src/indexer.h:287): sets `id` and `usr`, no assert. -/
def VarDefDefinitionData.make (id : VarId) (usr : String) : VarDefDefinitionData :=
  ⟨id, usr, "", "", none, none, none, none⟩

/-- The variable record `IndexedVarDef` (src/indexer.h:290-301). -/
structure IndexedVarDef where
  ddef : VarDefDefinitionData
  uses : List Location
  is_system_def : Bool
deriving DecidableEq

/-- The ctor `IndexedVarDef(VarId id, const std::string& usr) : def(id,
usr) { assert(usr.size() > 0); }` (src/indexer.h:298-300). -/
def IndexedVarDef.make (id : VarId) (usr : String) :
    Except IndexError IndexedVarDef :=
  if usr.length > 0 then .ok ⟨VarDefDefinitionData.make id usr, [], false⟩
  else .error .invariantViolated

/-- C9: constructing a Func or Var record with an empty USR fails the
assertion; with a non-empty USR both constructions succeed (the assert is
unreachable), and a Type record accepts any USR, the empty one included. -/
theorem record_ctor_empty_usr (id : Nat) :
    IndexedFuncDef.make ⟨id⟩ "" = .error .invariantViolated ∧
    IndexedVarDef.make ⟨id⟩ "" = .error .invariantViolated ∧
    (∀ usr : String, usr.length > 0 →
      (∃ fd, IndexedFuncDef.make ⟨id⟩ usr = .ok fd ∧ fd.ddef.usr = usr) ∧
      (∃ vd, IndexedVarDef.make ⟨id⟩ usr = .ok vd ∧ vd.ddef.usr = usr)) ∧
    (∀ usr : String, (IndexedTypeDef.make ⟨id⟩ usr).ddef.usr = usr) := by
  refine ⟨rfl, rfl, ?_, fun usr => rfl⟩
  intro usr hlen
  constructor
  · refine ⟨⟨⟨⟨id⟩, usr, "", "", none, none, none, [], []⟩, [], [], [], [], false⟩, ?_, rfl⟩
    simp [IndexedFuncDef.make, FuncDefDefinitionData.make, if_pos hlen]
  · refine ⟨⟨VarDefDefinitionData.make ⟨id⟩ usr, [], false⟩, ?_, rfl⟩
    simp [IndexedVarDef.make, if_pos hlen]

/-- Witness for C9 at concrete inputs: empty USRs are rejected, "u" is
accepted for Func and Var, and a Type record takes the empty USR. -/
theorem record_ctor_empty_usr_witness :
    IndexedFuncDef.make ⟨0⟩ "" = .error .invariantViolated ∧
    ("u".length > 0 ∧ ∃ fd, IndexedFuncDef.make ⟨0⟩ "u" = .ok fd ∧ fd.ddef.usr = "u") ∧
    (IndexedTypeDef.make ⟨0⟩ "").ddef.usr = "" := by
  refine ⟨(record_ctor_empty_usr 0).1, ⟨by decide, ?_⟩, (record_ctor_empty_usr 0).2.2.2 ""⟩
  exact ((record_ctor_empty_usr 0).2.2.1 "u" (by decide)).1

/-! ## Usage insertion (`AddUsage`, spec §4.4)

`IndexedTypeDef::AddUsage(Location, bool)` is declared at
src/indexer.h:215 but defined in the absent `indexer.cc`; Func and Var
share the same insertion rule per the spec. -/

/-- Modelled from the spec: `AddUsage(loc, insert_if_not_present)` — search
`uses` for an element equal-ignoring-interesting to `loc`; if found and
the existing entry is not interesting while `loc` is, promote the entry to
interesting; if not found, append `loc` only when `insert_if_not_present`. -/
def AddUsage (uses : List Location) (loc : Location)
    (insert_if_not_present : Bool) : List Location :=
  match uses with
  | [] => if insert_if_not_present then [loc] else []
  | u :: rest =>
    if u.IsEqualTo loc then
      (if !u.interesting && loc.interesting then u.WithInteresting true else u) :: rest
    else
      u :: AddUsage rest loc insert_if_not_present

/-! ### Facts about `IsEqualTo` and `WithInteresting` -/

theorem Location.isEqualTo_shift {x y : Location} :
    x.IsEqualTo y = true ↔ x.value / 2 = y.value / 2 := by
  simp [Location.IsEqualTo]

theorem Location.isEqualTo_symm (x y : Location) : x.IsEqualTo y = y.IsEqualTo x := by
  simp only [Location.IsEqualTo]
  rw [Bool.eq_iff_iff]
  simp only [beq_iff_eq]
  omega

theorem Location.isEqualTo_congr {x y : Location} (h : x.IsEqualTo y = true)
    (b : Location) : x.IsEqualTo b = y.IsEqualTo b := by
  rw [Location.isEqualTo_shift] at h
  simp only [Location.IsEqualTo, h]

theorem Location.withInteresting_shift (l : Location) (b : Bool) :
    (l.WithInteresting b).value / 2 = l.value / 2 := by
  cases b <;> simp [Location.WithInteresting] <;> omega

theorem Location.withInteresting_isEqualTo (l : Location) (b : Bool) :
    (l.WithInteresting b).IsEqualTo l = true := by
  rw [Location.isEqualTo_shift]
  exact Location.withInteresting_shift l b

theorem Location.withInteresting_interesting (l : Location) (b : Bool) :
    (l.WithInteresting b).interesting = b := by
  cases b <;> simp [Location.WithInteresting, Location.interesting] <;> omega

/-- Every element of the result of `AddUsage` either matches an element of
the input (ignoring interestingness) or is the appended `loc` itself. -/
theorem mem_addUsage (uses : List Location) (loc : Location) (ins : Bool) :
    ∀ v ∈ AddUsage uses loc ins,
      (∃ w ∈ uses, v.IsEqualTo w = true) ∨ v = loc := by
  induction uses with
  | nil =>
    intro v hv
    rw [show AddUsage [] loc ins = if ins then [loc] else [] from rfl] at hv
    cases ins
    · simp at hv
    · simp at hv
      right
      exact hv
  | cons u rest ih =>
    intro v hv
    by_cases hm : u.IsEqualTo loc = true
    · rw [AddUsage, if_pos hm] at hv
      rcases List.mem_cons.mp hv with hv | hv
      · left
        refine ⟨u, List.mem_cons_self u rest, ?_⟩
        subst hv
        by_cases hp : (!u.interesting && loc.interesting) = true
        · rw [if_pos hp]
          exact Location.withInteresting_isEqualTo u true
        · rw [if_neg hp]
          rw [Location.isEqualTo_shift]
      · left
        exact ⟨v, List.mem_cons_of_mem u hv, by rw [Location.isEqualTo_shift]⟩
    · rw [AddUsage, if_neg hm] at hv
      rcases List.mem_cons.mp hv with hv | hv
      · left
        exact ⟨u, List.mem_cons_self u rest, by subst hv; rw [Location.isEqualTo_shift]⟩
      · rcases ih v hv with ⟨w, hw, hvw⟩ | hv
        · exact Or.inl ⟨w, List.mem_cons_of_mem u hw, hvw⟩
        · exact Or.inr hv

/-- C4: under the deduplication invariant, `AddUsage` preserves it (no two
entries are ever equal ignoring interestingness); re-adding a location
that already matches an entry never grows the list; when `loc` is
interesting the matching entry ends up interesting; and an entry that is
already interesting stays interesting. -/
theorem addUsage_spec (uses : List Location) (loc : Location) (ins : Bool)
    (hdedup : uses.Pairwise fun a b => a.IsEqualTo b = false) :
    (AddUsage uses loc ins).Pairwise (fun a b => a.IsEqualTo b = false) ∧
    (∀ u ∈ uses, u.IsEqualTo loc = true →
      (AddUsage uses loc ins).length = uses.length) ∧
    (∀ u ∈ uses, u.IsEqualTo loc = true → loc.interesting = true →
      ∃ v ∈ AddUsage uses loc ins, v.IsEqualTo u = true ∧ v.interesting = true) ∧
    (∀ u ∈ uses, u.interesting = true →
      ∃ v ∈ AddUsage uses loc ins, v.IsEqualTo u = true ∧ v.interesting = true) := by
  induction uses with
  | nil =>
    refine ⟨?_, ?_, ?_, ?_⟩
    · cases ins <;> simp [AddUsage]
    · intro u hu
      cases hu
    · intro u hu
      cases hu
    · intro u hu
      cases hu
  | cons u rest ih =>
    have hu_rest : ∀ b ∈ rest, u.IsEqualTo b = false := (List.pairwise_cons.mp hdedup).1
    have hrest : rest.Pairwise fun a b => a.IsEqualTo b = false :=
      (List.pairwise_cons.mp hdedup).2
    obtain ⟨ihp, ihl, ihi, ihm⟩ := ih hrest
    by_cases hm : u.IsEqualTo loc = true
    · -- the head matches: it is (possibly promoted and) kept, the tail is unchanged
      have hbody : AddUsage (u :: rest) loc ins =
          (if !u.interesting && loc.interesting then u.WithInteresting true else u) ::
            rest := by
        rw [AddUsage, if_pos hm]
      have hshift : (if !u.interesting && loc.interesting then u.WithInteresting true
          else u).IsEqualTo u = true := by
        by_cases hp : (!u.interesting && loc.interesting) = true
        · rw [if_pos hp]
          exact Location.withInteresting_isEqualTo u true
        · rw [if_neg hp]
          rw [Location.isEqualTo_shift]
      refine ⟨?_, ?_, ?_, ?_⟩
      · rw [hbody]
        refine List.pairwise_cons.mpr ⟨?_, hrest⟩
        intro b hb
        rw [Location.isEqualTo_congr hshift b]
        exact hu_rest b hb
      · intro w hw hwl
        rw [hbody]
        simp
      · intro w hw hwl hint
        rcases List.mem_cons.mp hw with hw | hw
        · subst hw
          refine ⟨(if !w.interesting && loc.interesting then w.WithInteresting true
            else w), by rw [hbody]; exact List.mem_cons_self _ _, hshift, ?_⟩
          by_cases hwi : w.interesting = true
          · rw [if_neg (by simp [hwi]), hwi]
          · have hwf : w.interesting = false := by
              cases hf : w.interesting
              · rfl
              · exact absurd hf hwi
            rw [if_pos (by simp [hint, hwf])]
            exact Location.withInteresting_interesting w true
        · -- a second match in the tail would contradict deduplication
          exfalso
          have h1 : u.IsEqualTo w = false := hu_rest w hw
          have h2 : u.IsEqualTo w = true := by
            rw [Location.isEqualTo_shift]
            rw [Location.isEqualTo_shift] at hm hwl
            omega
          rw [h1] at h2
          cases h2
      · intro w hw hwi
        rcases List.mem_cons.mp hw with hw | hw
        · subst hw
          refine ⟨(if !w.interesting && loc.interesting then w.WithInteresting true
            else w), by rw [hbody]; exact List.mem_cons_self _ _, hshift, ?_⟩
          rw [if_neg (by simp [hwi]), hwi]
        · exact ⟨w, by rw [hbody]; exact List.mem_cons_of_mem _ hw,
            by rw [Location.isEqualTo_shift], hwi⟩
    · -- the head does not match: it is kept and the tail is processed
      have hbody : AddUsage (u :: rest) loc ins = u :: AddUsage rest loc ins := by
        rw [AddUsage, if_neg hm]
      refine ⟨?_, ?_, ?_, ?_⟩
      · rw [hbody]
        refine List.pairwise_cons.mpr ⟨?_, ihp⟩
        intro v hv
        rcases mem_addUsage rest loc ins v hv with ⟨w, hw, hvw⟩ | hv
        · rw [Location.isEqualTo_symm, Location.isEqualTo_congr hvw u,
            Location.isEqualTo_symm]
          exact hu_rest w hw
        · subst hv
          cases h : u.IsEqualTo v
          · rfl
          · exact absurd h (by simp [hm])
      · intro w hw hwl
        rcases List.mem_cons.mp hw with hw | hw
        · subst hw
          rw [hwl] at hm
          cases hm rfl
        · rw [hbody]
          simp [ihl w hw hwl]
      · intro w hw hwl hint
        rcases List.mem_cons.mp hw with hw | hw
        · subst hw
          rw [hwl] at hm
          cases hm rfl
        · obtain ⟨v, hv, hvw, hvi⟩ := ihi w hw hwl hint
          exact ⟨v, by rw [hbody]; exact List.mem_cons_of_mem _ hv, hvw, hvi⟩
      · intro w hw hwi
        rcases List.mem_cons.mp hw with hw | hw
        · subst hw
          exact ⟨w, by rw [hbody]; exact List.mem_cons_self _ _,
            by rw [Location.isEqualTo_shift], hwi⟩
        · obtain ⟨v, hv, hvw, hvi⟩ := ihm w hw hwi
          exact ⟨v, by rw [hbody]; exact List.mem_cons_of_mem _ hv, hvw, hvi⟩

/-- Witness for C4: re-adding the interesting twin of a stored location
keeps the list at one element and promotes the entry. -/
theorem addUsage_spec_witness :
    ([Location.pack false 1 2 3].Pairwise fun a b => a.IsEqualTo b = false) ∧
    (AddUsage [Location.pack false 1 2 3] (Location.pack true 1 2 3) true).length = 1 ∧
    ∃ v ∈ AddUsage [Location.pack false 1 2 3] (Location.pack true 1 2 3) true,
      v.IsEqualTo (Location.pack false 1 2 3) = true ∧ v.interesting = true := by
  have hd : [Location.pack false 1 2 3].Pairwise fun a b => a.IsEqualTo b = false := by
    simp
  have h := addUsage_spec [Location.pack false 1 2 3] (Location.pack true 1 2 3) true hd
  refine ⟨hd, ?_, ?_⟩
  · exact h.2.1 (Location.pack false 1 2 3) (List.mem_cons_self _ _) (by decide)
  · exact h.2.2.1 (Location.pack false 1 2 3) (List.mem_cons_self _ _) (by decide)
      (by decide)

/-! ## IndexedFile store and USR interning (src/indexer.h:304-331)

`ToTypeId` / `ToFuncId` / `ToVarId` are declared in the header but defined
in the absent `indexer.cc`; their bodies are modelled from the spec
(§4.3): if the usr is present return the existing id, else append a fresh
record constructed with (fresh_id = vector.len, usr) and store the
mapping. -/

/-- The per-file store (src/indexer.h:304-331): the three USR intern maps,
the three record vectors, and the file db. -/
structure IndexedFile where
  usr_to_type_id : List (String × TypeId)
  usr_to_func_id : List (String × FuncId)
  usr_to_var_id : List (String × VarId)
  types : List IndexedTypeDef
  funcs : List IndexedFuncDef
  vars : List IndexedVarDef
  file_db : IndexedFileDb

/-- Modelled from the spec: `IndexedFile()` (defined in the absent
`indexer.cc`) — created empty, with the file db freshly constructed. -/
def IndexedFile.init : IndexedFile :=
  ⟨[], [], [], [], [], [], IndexedFileDb.init⟩

/-- Modelled from the spec: `TypeId IndexedFile::ToTypeId(const
std::string& usr)`. -/
def IndexedFile.ToTypeId (f : IndexedFile) (usr : String) : IndexedFile × TypeId :=
  match assocFind f.usr_to_type_id usr with
  | some id => (f, id)
  | none =>
    let id : TypeId := ⟨f.types.length⟩
    ({ f with types := f.types ++ [IndexedTypeDef.make id usr],
              usr_to_type_id := f.usr_to_type_id ++ [(usr, id)] }, id)

/-- Modelled from the spec: `FuncId IndexedFile::ToFuncId(const
std::string& usr)`; the fresh record's constructor asserts a non-empty
usr. -/
def IndexedFile.ToFuncId (f : IndexedFile) (usr : String) :
    Except IndexError (IndexedFile × FuncId) :=
  match assocFind f.usr_to_func_id usr with
  | some id => .ok (f, id)
  | none =>
    let id : FuncId := ⟨f.funcs.length⟩
    match IndexedFuncDef.make id usr with
    | .error e => .error e
    | .ok r =>
      .ok ({ f with funcs := f.funcs ++ [r],
                    usr_to_func_id := f.usr_to_func_id ++ [(usr, id)] }, id)

/-- Modelled from the spec: `VarId IndexedFile::ToVarId(const std::string&
usr)`; the fresh record's constructor asserts a non-empty usr. -/
def IndexedFile.ToVarId (f : IndexedFile) (usr : String) :
    Except IndexError (IndexedFile × VarId) :=
  match assocFind f.usr_to_var_id usr with
  | some id => .ok (f, id)
  | none =>
    let id : VarId := ⟨f.vars.length⟩
    match IndexedVarDef.make id usr with
    | .error e => .error e
    | .ok r =>
      .ok ({ f with vars := f.vars ++ [r],
                    usr_to_var_id := f.usr_to_var_id ++ [(usr, id)] }, id)

/-- The intern-table invariant for one kind (spec §3 invariant 1): every
mapped usr points at an in-range record carrying that usr, and every
record's usr maps back to the record's own index. -/
def InternWf {R : Type} (usrOf : R → String) (m : List (String × LocalId))
    (recs : List R) : Prop :=
  (∀ u id, assocFind m u = some id → (recs[id.local_id]?).map usrOf = some u) ∧
  (∀ j t, recs[j]? = some t → assocFind m (usrOf t) = some ⟨j⟩)

/-- Appending a fresh record with a fresh usr preserves the intern-table
invariant. -/
theorem internWf_append {R : Type} (usrOf : R → String) (m : List (String × LocalId))
    (recs : List R) (u : String) (r : R) (hw : InternWf usrOf m recs)
    (habs : assocFind m u = none) (hr : usrOf r = u) :
    InternWf usrOf (m ++ [(u, ⟨recs.length⟩)]) (recs ++ [r]) := by
  obtain ⟨hw1, hw2⟩ := hw
  constructor
  · intro u2 id hfind
    cases hfound : assocFind m u2 with
    | none =>
      rw [assocFind_append_right _ _ _ hfound] at hfind
      simp only [assocFind] at hfind
      by_cases he : u = u2
      · rw [if_pos he] at hfind
        cases hfind
        rw [List.getElem?_concat_length]
        simp [hr, he]
      · rw [if_neg he] at hfind
        cases hfind
    | some id2 =>
      rw [assocFind_append_left _ _ _ _ hfound] at hfind
      injection hfind with hinj
      rw [← hinj]
      have hget := hw1 u2 id2 hfound
      have hlt : id2.local_id < recs.length := by
        by_contra hge
        rw [List.getElem?_eq_none (by omega)] at hget
        cases hget
      rw [List.getElem?_append_left hlt]
      exact hget
  · intro j t hget
    by_cases hj : j < recs.length
    · rw [List.getElem?_append_left hj] at hget
      have := hw2 j t hget
      exact assocFind_append_left _ _ _ _ this
    · by_cases hj2 : j = recs.length
      · subst hj2
        rw [List.getElem?_concat_length] at hget
        cases hget
        rw [hr, assocFind_append_right _ _ _ habs]
        simp [assocFind]
      · rw [List.getElem?_eq_none (by simp; omega)] at hget
        cases hget

/-- Two records of the same kind never share a usr under the invariant. -/
theorem internWf_unique {R : Type} (usrOf : R → String) (m : List (String × LocalId))
    (recs : List R) (hw : InternWf usrOf m recs) :
    ∀ (i j : Nat) (ti tj : R), recs[i]? = some ti → recs[j]? = some tj →
      usrOf ti = usrOf tj → i = j := by
  intro i j ti tj hi hj he
  have h1 := hw.2 i ti hi
  have h2 := hw.2 j tj hj
  rw [he, h2] at h1
  cases h1
  rfl

/-- C3: each of `ToTypeId`, `ToFuncId`, `ToVarId` is an interning
function — a usr already in its map resolves to the existing id with the
state untouched; an absent usr (non-empty for Func/Var) appends exactly
one fresh record whose id is the vector length at that moment and whose
usr is the given one, and stores the mapping; any successful call
preserves the invariant that looking up a usr yields a record carrying
that usr, so there is at most one record per (kind, usr). -/
theorem indexedFile_intern_spec (f : IndexedFile) (u : String) :
    ((∀ id, assocFind f.usr_to_type_id u = some id → f.ToTypeId u = (f, id)) ∧
     (assocFind f.usr_to_type_id u = none →
       f.ToTypeId u =
         ({ f with types := f.types ++ [IndexedTypeDef.make ⟨f.types.length⟩ u],
                   usr_to_type_id := f.usr_to_type_id ++ [(u, ⟨f.types.length⟩)] },
          ⟨f.types.length⟩)) ∧
     (InternWf (fun t => t.ddef.usr) f.usr_to_type_id f.types →
       InternWf (fun t => t.ddef.usr) (f.ToTypeId u).1.usr_to_type_id
         (f.ToTypeId u).1.types)) ∧
    ((∀ id, assocFind f.usr_to_func_id u = some id → f.ToFuncId u = .ok (f, id)) ∧
     (u.length > 0 → assocFind f.usr_to_func_id u = none →
       ∃ r, IndexedFuncDef.make ⟨f.funcs.length⟩ u = .ok r ∧ r.ddef.usr = u ∧
         f.ToFuncId u =
           .ok ({ f with funcs := f.funcs ++ [r],
                         usr_to_func_id := f.usr_to_func_id ++ [(u, ⟨f.funcs.length⟩)] },
                ⟨f.funcs.length⟩)) ∧
     (∀ g id, f.ToFuncId u = .ok (g, id) →
       InternWf (fun t => t.ddef.usr) f.usr_to_func_id f.funcs →
       InternWf (fun t => t.ddef.usr) g.usr_to_func_id g.funcs)) ∧
    ((∀ id, assocFind f.usr_to_var_id u = some id → f.ToVarId u = .ok (f, id)) ∧
     (u.length > 0 → assocFind f.usr_to_var_id u = none →
       ∃ r, IndexedVarDef.make ⟨f.vars.length⟩ u = .ok r ∧ r.ddef.usr = u ∧
         f.ToVarId u =
           .ok ({ f with vars := f.vars ++ [r],
                         usr_to_var_id := f.usr_to_var_id ++ [(u, ⟨f.vars.length⟩)] },
                ⟨f.vars.length⟩)) ∧
     (∀ g id, f.ToVarId u = .ok (g, id) →
       InternWf (fun t => t.ddef.usr) f.usr_to_var_id f.vars →
       InternWf (fun t => t.ddef.usr) g.usr_to_var_id g.vars)) := by
  refine ⟨⟨?_, ?_, ?_⟩, ⟨?_, ?_, ?_⟩, ⟨?_, ?_, ?_⟩⟩
  · intro id hid
    simp [IndexedFile.ToTypeId, hid]
  · intro habs
    simp [IndexedFile.ToTypeId, habs]
  · intro hw
    cases hfind : assocFind f.usr_to_type_id u with
    | some id => simp [IndexedFile.ToTypeId, hfind, hw]
    | none =>
      simp only [IndexedFile.ToTypeId, hfind]
      exact internWf_append _ _ _ _ _ hw hfind rfl
  · intro id hid
    simp [IndexedFile.ToFuncId, hid]
  · intro hlen habs
    have hmk : IndexedFuncDef.make ⟨f.funcs.length⟩ u =
        .ok ⟨⟨⟨f.funcs.length⟩, u, "", "", none, none, none, [], []⟩,
          [], [], [], [], false⟩ := by
      simp [IndexedFuncDef.make, FuncDefDefinitionData.make, if_pos hlen]
    refine ⟨_, hmk, rfl, ?_⟩
    simp [IndexedFile.ToFuncId, habs, hmk]
  · intro g id hok hw
    cases hfind : assocFind f.usr_to_func_id u with
    | some id2 =>
      simp only [IndexedFile.ToFuncId, hfind, Except.ok.injEq, Prod.mk.injEq] at hok
      rw [← hok.1]
      exact hw
    | none =>
      simp only [IndexedFile.ToFuncId, hfind] at hok
      cases hmk : IndexedFuncDef.make ⟨f.funcs.length⟩ u with
      | error e => rw [hmk] at hok; cases hok
      | ok r =>
        rw [hmk] at hok
        simp only [Except.ok.injEq, Prod.mk.injEq] at hok
        have hru : r.ddef.usr = u := by
          by_cases hl : u.length > 0
          · have hmk2 : IndexedFuncDef.make ⟨f.funcs.length⟩ u =
                .ok ⟨⟨⟨f.funcs.length⟩, u, "", "", none, none, none, [], []⟩,
                  [], [], [], [], false⟩ := by
              simp [IndexedFuncDef.make, FuncDefDefinitionData.make, if_pos hl]
            rw [hmk2] at hmk
            cases hmk
            rfl
          · have hmk2 : IndexedFuncDef.make ⟨f.funcs.length⟩ u =
                .error .invariantViolated := by
              simp [IndexedFuncDef.make, FuncDefDefinitionData.make, if_neg hl]
            rw [hmk2] at hmk
            cases hmk
        rw [← hok.1]
        exact internWf_append _ _ _ _ _ hw hfind hru
  · intro id hid
    simp [IndexedFile.ToVarId, hid]
  · intro hlen habs
    have hmk : IndexedVarDef.make ⟨f.vars.length⟩ u =
        .ok ⟨VarDefDefinitionData.make ⟨f.vars.length⟩ u, [], false⟩ := by
      simp [IndexedVarDef.make, if_pos hlen]
    refine ⟨_, hmk, rfl, ?_⟩
    simp [IndexedFile.ToVarId, habs, hmk]
  · intro g id hok hw
    cases hfind : assocFind f.usr_to_var_id u with
    | some id2 =>
      simp only [IndexedFile.ToVarId, hfind, Except.ok.injEq, Prod.mk.injEq] at hok
      rw [← hok.1]
      exact hw
    | none =>
      simp only [IndexedFile.ToVarId, hfind] at hok
      cases hmk : IndexedVarDef.make ⟨f.vars.length⟩ u with
      | error e => rw [hmk] at hok; cases hok
      | ok r =>
        rw [hmk] at hok
        simp only [Except.ok.injEq, Prod.mk.injEq] at hok
        have hru : r.ddef.usr = u := by
          by_cases hl : u.length > 0
          · have hmk2 : IndexedVarDef.make ⟨f.vars.length⟩ u =
                .ok ⟨VarDefDefinitionData.make ⟨f.vars.length⟩ u, [], false⟩ := by
              simp [IndexedVarDef.make, if_pos hl]
            rw [hmk2] at hmk
            cases hmk
            rfl
          · have hmk2 : IndexedVarDef.make ⟨f.vars.length⟩ u =
                .error .invariantViolated := by
              simp [IndexedVarDef.make, if_neg hl]
            rw [hmk2] at hmk
            cases hmk
        rw [← hok.1]
        exact internWf_append _ _ _ _ _ hw hfind hru

/-- Witness for C3: interning "T" into the empty store appends record 0
carrying usr "T". -/
theorem indexedFile_intern_spec_witness :
    IndexedFile.init.ToTypeId "T" =
      ({ IndexedFile.init with
           types := [IndexedTypeDef.make ⟨0⟩ "T"],
           usr_to_type_id := [("T", ⟨0⟩)] }, ⟨0⟩) := by
  have h := ((indexedFile_intern_spec IndexedFile.init "T").1).2.1 rfl
  simpa using h

/-! ## MessageHandler::ccls_vars (src/src/messages/ccls_vars.cc:31-61)

The query collaborators (symbol lookup, the query database, the location
conversion) are external interfaces and enter as parameters.  `Usr` is the
64-bit hashed symbol id of that code base; `0` is falsy, which is how
`if (!def || !def->type)` tests for an absent type. -/

/-- The symbol kinds the handler's switch distinguishes; every enumerator
other than `Var` and `Type` hits the `default: break` arm and is collapsed
into `Other`. -/
inductive Kind where
  | Var
  | Type
  | Other
deriving DecidableEq

/-- A symbol found at the requested position (`SymbolRef`, projected to
the fields the handler reads). -/
structure SymbolRef where
  usr : Nat
  kind : Kind

/-- The projection of `QueryVar::Def` the handler reads: `def->type`, a
Usr with 0 meaning "no type recorded". -/
structure QueryVarDef where
  type : Nat

/-- The external collaborators: `db->GetVar(sym).AnyDef()` (None models a
null pointer), and the composite
`GetLsLocations(db, wfiles, GetVarDeclarations(db, db->Type(usr).instances,
param.kind))` for the request's fixed `param.kind`, as a function of the
type usr. -/
structure VarsDb where
  varAnyDef : Nat → Option QueryVarDef
  typeLocations : Nat → List Nat

/-- The symbol loop of `MessageHandler::ccls_vars`
(src/src/messages/ccls_vars.cc:40-59): `result` is overwritten by the
`Kind::Type` arm, the `Kind::Var` arm falls through to it with
`usr = def->type` when a typed definition exists and `continue`s
otherwise, and every other kind `break`s out of the switch leaving
`result` unchanged. -/
def cclsVarsLoop (db : VarsDb) : List SymbolRef → List Nat → List Nat
  | [], result => result
  | sym :: rest, result =>
    match sym.kind with
    | .Var =>
      match db.varAnyDef sym.usr with
      | none => cclsVarsLoop db rest result
      | some d =>
        if d.type = 0 then cclsVarsLoop db rest result
        else cclsVarsLoop db rest (db.typeLocations d.type)
    | .Type => cclsVarsLoop db rest (db.typeLocations sym.usr)
    | .Other => cclsVarsLoop db rest result

/-- `MessageHandler::ccls_vars`: run the loop over the symbols at the
requested position, starting from the empty reply. -/
def MessageHandler_ccls_vars (db : VarsDb) (syms : List SymbolRef) : List Nat :=
  cclsVarsLoop db syms []

/-- A symbol that writes to `result`: a type symbol, or a variable symbol
whose definition exists and records a type. -/
def contributes (db : VarsDb) (sym : SymbolRef) : Bool :=
  match sym.kind with
  | .Type => true
  | .Var =>
    match db.varAnyDef sym.usr with
    | none => false
    | some d => d.type != 0
  | .Other => false

theorem cclsVarsLoop_filter (db : VarsDb) (syms : List SymbolRef) :
    ∀ result, cclsVarsLoop db syms result =
      cclsVarsLoop db (syms.filter (contributes db)) result := by
  induction syms with
  | nil => intro result; rfl
  | cons sym rest ih =>
    intro result
    cases hk : sym.kind
    · -- Kind.Var
      cases hd : db.varAnyDef sym.usr with
      | none =>
        rw [show cclsVarsLoop db (sym :: rest) result = cclsVarsLoop db rest result by
          rw [cclsVarsLoop]; rw [hk, hd]]
        rw [show (sym :: rest).filter (contributes db) = rest.filter (contributes db) by
          simp [List.filter_cons, contributes, hk, hd]]
        exact ih result
      | some d =>
        by_cases ht : d.type = 0
        · rw [show cclsVarsLoop db (sym :: rest) result = cclsVarsLoop db rest result by
            rw [cclsVarsLoop]; rw [hk, hd]; simp [ht]]
          rw [show (sym :: rest).filter (contributes db) = rest.filter (contributes db) by
            simp [List.filter_cons, contributes, hk, hd, ht]]
          exact ih result
        · rw [show cclsVarsLoop db (sym :: rest) result =
              cclsVarsLoop db rest (db.typeLocations d.type) by
            rw [cclsVarsLoop]; rw [hk, hd]; simp [ht]]
          rw [show (sym :: rest).filter (contributes db) =
              sym :: rest.filter (contributes db) by
            simp [List.filter_cons, contributes, hk, hd, bne_iff_ne, ht]]
          rw [show cclsVarsLoop db (sym :: rest.filter (contributes db)) result =
              cclsVarsLoop db (rest.filter (contributes db))
                (db.typeLocations d.type) by
            rw [cclsVarsLoop]; rw [hk, hd]; simp [ht]]
          exact ih (db.typeLocations d.type)
    · -- Kind.Type
      rw [show cclsVarsLoop db (sym :: rest) result =
          cclsVarsLoop db rest (db.typeLocations sym.usr) by
        rw [cclsVarsLoop]; rw [hk]]
      rw [show (sym :: rest).filter (contributes db) =
          sym :: rest.filter (contributes db) by
        simp [List.filter_cons, contributes, hk]]
      rw [show cclsVarsLoop db (sym :: rest.filter (contributes db)) result =
          cclsVarsLoop db (rest.filter (contributes db))
            (db.typeLocations sym.usr) by
        rw [cclsVarsLoop]; rw [hk]]
      exact ih (db.typeLocations sym.usr)
    · -- Kind.Other
      rw [show cclsVarsLoop db (sym :: rest) result = cclsVarsLoop db rest result by
        rw [cclsVarsLoop]; rw [hk]]
      rw [show (sym :: rest).filter (contributes db) = rest.filter (contributes db) by
        simp [List.filter_cons, contributes, hk]]
      exact ih result

/-- C10: symbols that are skipped — variables with no definition or whose
definition records no type, and symbols of other kinds — contribute no
locations to the reply (the reply is the one computed from the
contributing symbols alone, and it is empty when nothing contributes),
and a variable symbol with a typed definition is answered exactly as the
type symbol of its recorded type. -/
theorem ccls_vars_skips (db : VarsDb) (syms : List SymbolRef) :
    MessageHandler_ccls_vars db syms =
      MessageHandler_ccls_vars db (syms.filter (contributes db)) ∧
    ((∀ sym ∈ syms, contributes db sym = false) →
      MessageHandler_ccls_vars db syms = []) ∧
    (∀ sym d, sym.kind = .Var → db.varAnyDef sym.usr = some d → d.type ≠ 0 →
      MessageHandler_ccls_vars db [sym] =
        MessageHandler_ccls_vars db [⟨d.type, .Type⟩]) := by
  refine ⟨cclsVarsLoop_filter db syms [], ?_, ?_⟩
  · intro hnone
    rw [MessageHandler_ccls_vars, cclsVarsLoop_filter db syms []]
    rw [List.filter_eq_nil_iff.mpr (by intro a ha; simp [hnone a ha])]
    rfl
  · intro sym d hk hd ht
    rw [MessageHandler_ccls_vars, MessageHandler_ccls_vars]
    rw [cclsVarsLoop]
    rw [hk, hd]
    simp only [if_neg ht]
    rfl

/-- Witness for C10: with one type having locations and one typeless
variable, the typeless variable alone yields an empty reply, and the typed
variable is answered as its type. -/
theorem ccls_vars_skips_witness :
    (∀ sym ∈ [SymbolRef.mk 5 Kind.Var],
      contributes
        ⟨fun u => if u = 5 then some ⟨0⟩ else if u = 6 then some ⟨9⟩ else none,
         fun u => if u = 9 then [41, 42] else []⟩ sym = false) ∧
    MessageHandler_ccls_vars
      ⟨fun u => if u = 5 then some ⟨0⟩ else if u = 6 then some ⟨9⟩ else none,
       fun u => if u = 9 then [41, 42] else []⟩ [SymbolRef.mk 5 Kind.Var] = [] ∧
    MessageHandler_ccls_vars
      ⟨fun u => if u = 5 then some ⟨0⟩ else if u = 6 then some ⟨9⟩ else none,
       fun u => if u = 9 then [41, 42] else []⟩ [SymbolRef.mk 6 Kind.Var] =
      MessageHandler_ccls_vars
        ⟨fun u => if u = 5 then some ⟨0⟩ else if u = 6 then some ⟨9⟩ else none,
         fun u => if u = 9 then [41, 42] else []⟩ [SymbolRef.mk 9 Kind.Type] := by
  refine ⟨by intro sym hs; simp at hs; subst hs; rfl, ?_, ?_⟩
  · exact (ccls_vars_skips
      ⟨fun u => if u = 5 then some ⟨0⟩ else if u = 6 then some ⟨9⟩ else none,
       fun u => if u = 9 then [41, 42] else []⟩ [SymbolRef.mk 5 Kind.Var]).2.1
      (by intro sym hs; simp at hs; subst hs; rfl)
  · exact (ccls_vars_skips
      ⟨fun u => if u = 5 then some ⟨0⟩ else if u = 6 then some ⟨9⟩ else none,
       fun u => if u = 9 then [41, 42] else []⟩ [SymbolRef.mk 6 Kind.Var]).2.2
      (SymbolRef.mk 6 Kind.Var) ⟨9⟩ rfl rfl (by decide)

end CclsIndexer
